import Mathlib

/-!
# Verification of the shadcn-registry-builder dependency-graph engine

A shallow embedding of the import-resolution and dependency-graph core of the
`shadcn-registry-builder` repository, together with proofs and refutations of
the frozen specification claims.

The embedding models:
* `src/scanner/content-files.ts` (content-file heuristics and the file-graph
  half: import-count annotation, file index, path-variant lookup),
* `src/scanner/import-parser.ts` (package matching, path-alias resolution),
* `src/component-summary.ts` (transitive closure builder and output shaping).

JavaScript strings are Lean `String`s; all string manipulation is implemented
over `List Char` by structural recursion so every definition evaluates inside
the kernel.  `node:path` (POSIX flavour) is modelled segment-wise; all call
sites in the engine pass absolute root paths, which the model assumes.
JavaScript `Map`s are association lists: the file index registers bindings by
prepending (`mapSet`), so the most recent binding wins on lookup, matching
`Map.set` overwrite semantics; maps whose insertion order is observed
(`assocSet`, `updateAssoc`) update an existing key in place and append new
keys, as `Map.set` does.  JavaScript `Set`s are duplicate-free lists in
insertion order.
-/

/-! ## Character-list string primitives -/

def strChars (s : String) : List Char := s.data

def strOfChars (l : List Char) : String := ⟨l⟩

/-- `p.isPrefixOf s` on the underlying characters: JS `String.prototype.startsWith`. -/
def strStarts (s p : String) : Bool := p.data.isPrefixOf s.data

/-- JS `String.prototype.endsWith`. -/
def strEnds (s p : String) : Bool := p.data.isSuffixOf s.data

/-- JS `String.prototype.includes` for a single character. -/
def strHasChar (s : String) (c : Char) : Bool := s.data.contains c

def strDrop (s : String) (n : Nat) : String := strOfChars (s.data.drop n)

def strDropRight (s : String) (n : Nat) : String := strOfChars (s.data.take (s.data.length - n))

def strTake (s : String) (n : Nat) : String := strOfChars (s.data.take n)

def strLen (s : String) : Nat := s.data.length

def strLower (s : String) : String := strOfChars (s.data.map Char.toLower)

/-- Index of the last occurrence of `c`, JS `String.prototype.lastIndexOf` (None for -1). -/
def lastIdxOf (c : Char) (l : List Char) : Option Nat :=
  match l.reverse.findIdx? (· = c) with
  | none => none
  | some j => some (l.length - 1 - j)

/-- Index of the first occurrence of the pattern, JS `String.prototype.indexOf` (None for -1). -/
def findSubIdx (pat : List Char) : List Char → Option Nat
  | [] => if pat.isEmpty then some 0 else none
  | c :: rest =>
    if pat.isPrefixOf (c :: rest) then some 0
    else (findSubIdx pat rest).map (· + 1)

/-- JS `String.prototype.replace` with a plain-string pattern: first occurrence only. -/
def replaceFirst (s pat rep : String) : String :=
  match findSubIdx pat.data s.data with
  | none => s
  | some i => strOfChars (s.data.take i ++ rep.data ++ s.data.drop (i + pat.data.length))

/-- JS `str.replace(/c/g, rep)` for a single-character global pattern. -/
def replaceAllChar (s : String) (c : Char) (rep : String) : String :=
  strOfChars (go s.data)
  where go : List Char → List Char
    | [] => []
    | x :: xs => (if x = c then rep.data else [x]) ++ go xs

/-- JS `String.prototype.split` with a single-character separator. -/
def splitChar (c : Char) (s : String) : List String :=
  (go s.data []).map strOfChars
  where go : List Char → List Char → List (List Char)
    | [], acc => [acc.reverse]
    | x :: xs, acc => if x = c then acc.reverse :: go xs [] else go xs (x :: acc)

/-- Lexicographic code-point comparison, modelling `localeCompare`-based ascending
sorts for the ASCII paths this engine handles. -/
def charsLe : List Char → List Char → Bool
  | [], _ => true
  | _ :: _, [] => false
  | a :: as, b :: bs => if a = b then charsLe as bs else decide (a < b)

def strLe (a b : String) : Bool := charsLe a.data b.data

/-- Ordered insert for the insertion sort modelling `Array.prototype.sort`. -/
def insertLe (le : α → α → Bool) (a : α) : List α → List α
  | [] => [a]
  | b :: bs => if le a b then a :: b :: bs else b :: insertLe le a bs

/-- Insertion sort modelling `Array.prototype.sort(comparator)` (ascending). -/
def sortLe (le : α → α → Bool) : List α → List α
  | [] => []
  | a :: as => insertLe le a (sortLe le as)

/-- JS `Set.prototype.add`: append when absent, preserving insertion order. -/
def insertIfAbsent [DecidableEq α] (l : List α) (a : α) : List α :=
  if a ∈ l then l else l ++ [a]

/-- Structural concat-map, used to flatten nested iteration into event lists. -/
def flatMapL (f : α → List β) : List α → List β
  | [] => []
  | a :: as => f a ++ flatMapL f as

/-- Pair each element with its index, starting at `i`. -/
def numberFrom (i : Nat) : List α → List (Nat × α)
  | [] => []
  | a :: as => (i, a) :: numberFrom (i + 1) as

/-! ## POSIX path model (`node:path`)

Only the behaviour exercised by the engine is modelled: the engine always
resolves against absolute root paths (the CLI absolutises the scan target
before any of these functions run), so `pathResolve`, `pathRelative` and
`pathJoinAbs` treat their base argument as absolute. -/

def splitSegs (s : String) : List String :=
  (splitChar '/' s).filter (· ≠ "")

/-- Collapse `.` and `..` segments of an absolute path (excess `..` is dropped
at the root, as `path.resolve` does). -/
def normSegs : List String → List String → List String
  | [], acc => acc.reverse
  | s :: rest, acc =>
    if s = "." then normSegs rest acc
    else if s = ".." then normSegs rest (acc.drop 1)
    else normSegs rest (s :: acc)

def joinSegs : List String → String
  | [] => ""
  | [s] => s
  | s :: rest => s ++ "/" ++ joinSegs rest

def normAbsStr (p : String) : String :=
  "/" ++ joinSegs (normSegs (splitSegs p) [])

/-- `path.resolve(base, rel)` with `base` absolute. -/
def pathResolve (base rel : String) : String :=
  if strStarts rel "/" then normAbsStr rel else normAbsStr (base ++ "/" ++ rel)

def dropCommon : List String → List String → List String × List String
  | a :: as, b :: bs => if a = b then dropCommon as bs else (a :: as, b :: bs)
  | as, bs => (as, bs)

/-- `path.relative(from, to)` for absolute arguments; empty string when equal. -/
def pathRelative (f t : String) : String :=
  let fa := normSegs (splitSegs f) []
  let ta := normSegs (splitSegs t) []
  let (fr, tr) := dropCommon fa ta
  joinSegs (List.replicate fr.length ".." ++ tr)

/-- `path.dirname` (absolute and relative arguments). -/
def pathDirname (p : String) : String :=
  let segs := splitSegs p
  if strStarts p "/" then
    if segs.length ≤ 1 then "/" else "/" ++ joinSegs segs.dropLast
  else
    if segs.length ≤ 1 then "." else joinSegs segs.dropLast

/-- `path.basename`. -/
def pathBasename (p : String) : String :=
  (splitSegs p).getLastD ""

/-- `path.extname`: from the last dot of the basename, empty when the basename
has no dot or starts with its only dot. -/
def pathExtname (p : String) : String :=
  let b := pathBasename p
  match lastIdxOf '.' b.data with
  | none => ""
  | some 0 => ""
  | some i => strDrop b i

/-- `path.join(base, p)` with `base` absolute. -/
def pathJoinAbs (base p : String) : String :=
  normAbsStr (base ++ "/" ++ p)


/-! ## Data model (`src/types.ts`, `src/package-info.ts`, `src/tsconfig-info.ts`,
`src/scanner/types.ts`) -/

structure PackageReference where
  name : String
  version : Option String
  type : String
deriving DecidableEq

structure ImportEntry where
  line : Nat
  statement : String
  moduleSpecifier : Option String
  fileDependency : Option String
  dependency : Option PackageReference
  devDependency : Option PackageReference
  registryDependency : Option PackageReference
  pathAlias : Option String
  resolvedPaths : Option (List String)
deriving DecidableEq

structure FileMeta where
  size : Nat
  modifiedAt : String
  importCount : Option Nat
deriving DecidableEq

structure FileNode where
  name : String
  path : String
  imports : List ImportEntry
  meta : FileMeta
deriving DecidableEq

/-- `TreeNode = FileNode | DirectoryNode`; the directory variant carries
`name`, `path` and ordered `children`. -/
inductive TreeNode where
  | file (f : FileNode)
  | dir (name : String) (path : String) (children : List TreeNode)

structure PackageInfo where
  path : String
  name : Option String
  version : Option String
  dependencies : List (String × String)
  devDependencies : List (String × String)
deriving DecidableEq

structure PathMapping where
  «alias» : String
  targets : List String
  sourceFile : String
deriving DecidableEq

structure ContentFileInfo where
  path : String
  basePath : String
  directory : String
deriving DecidableEq

/-- `ScanOptions`: optional JS fields that behave identically when `undefined`
or empty (`pathMappings`, `contentFiles`) are plain lists; `contentDependencyMap`
stays optional because `attachContentDependencies` is specified to always
assign it. -/
structure ScanOptions where
  packageInfo : Option PackageInfo
  pathMappings : List PathMapping
  packageRoot : Option String
  contentFiles : List ContentFileInfo
  contentDependencyMap : Option (List (String × List String))
deriving DecidableEq

/-- JS `Record<string,string>` access with truthiness: a missing key and an
empty-string value are both falsy. -/
def recTruthy (m : List (String × String)) (k : String) : Option String :=
  match m.lookup k with
  | none => none
  | some v => if v = "" then none else some v

/-! ## File graph (`src/scanner/file-graph.ts`, re-exported through
`src/scanner.ts`): file index, path-variant lookup, import-count annotation -/

/-- `collectFileNodes`: depth-first flattening of the tree into file nodes. -/
def collectFileNodes : TreeNode → List FileNode
  | .file f => [f]
  | .dir _ _ cs => collectList cs
  where collectList : List TreeNode → List FileNode
    | [] => []
    | t :: ts => collectFileNodes t ++ collectList ts

def normalizeLookupPath (value : String) : String :=
  let n := replaceAllChar value '\\' "/"
  let n := if strStarts n "./" then strDrop n 2 else n
  dropSlashes n.data
  where dropSlashes : List Char → String
    | '/' :: rest => dropSlashes rest
    | l => strOfChars l

/-- `stripExtension` in `file-graph.ts`: cut at the last dot unless it is
missing or leading. -/
def stripExtension (value : String) : String :=
  match lastIdxOf '.' value.data with
  | none => value
  | some i => if i = 0 then value else strTake value i

def stripIndex (value : String) : String :=
  if strEnds value "/index" then strDropRight value 6 else value

/-- `Map.set` as used throughout: the freshest binding shadows older ones. -/
def mapSet (m : List (String × α)) (k : String) (v : α) : List (String × α) :=
  (k, v) :: m

/-- `Map.get`: the most recent binding of the key, if any. -/
def assocFind (k : String) : List (String × α) → Option α
  | [] => none
  | (k', v) :: rest => if k = k' then some v else assocFind k rest

/-- `registerPathVariants`: exact path, extension-stripped, `/index`-stripped. -/
def registerPathVariants (m : List (String × α)) (normalizedPath : String) (v : α) :
    List (String × α) :=
  let m := mapSet m normalizedPath v
  let withoutExt := stripExtension normalizedPath
  let m := if withoutExt ≠ normalizedPath then mapSet m withoutExt v else m
  let withoutIndex := stripIndex withoutExt
  if withoutIndex ≠ "" ∧ withoutIndex ≠ withoutExt then mapSet m withoutIndex v else m

/-- The keys `registerPathVariants` registers for one file path. -/
def fileKeys (normalizedPath : String) : List String :=
  let withoutExt := stripExtension normalizedPath
  let withoutIndex := stripIndex withoutExt
  [normalizedPath]
    ++ (if withoutExt ≠ normalizedPath then [withoutExt] else [])
    ++ (if withoutIndex ≠ "" ∧ withoutIndex ≠ withoutExt then [withoutIndex] else [])

/-- `buildFileLookup`, generic in the stored value (the engine stores the node
itself; the annotation model stores the node's position). -/
def buildFileLookupGen (value : FileNode → α) (files : List FileNode) :
    List (String × α) :=
  files.foldl (fun m f => registerPathVariants m (normalizeLookupPath f.path) (value f)) []

def buildFileIndex (root : TreeNode) : List (String × FileNode) :=
  buildFileLookupGen id (collectFileNodes root)

/-- `findFileNodeByRelativePath`: exact, then extension-stripped, then
`/index`-stripped lookups. -/
def findFileNodeByRelativePath (lookup : List (String × α)) (relativePath : String) :
    Option α :=
  match assocFind (normalizeLookupPath relativePath) lookup with
  | some v => some v
  | none =>
    match assocFind (stripExtension (normalizeLookupPath relativePath)) lookup with
    | some v => some v
    | none => assocFind (stripIndex (normalizeLookupPath relativePath)) lookup

/-- `isRelativeModule` (`import-parser.ts`). -/
def isRelativeModule (moduleSpecifier : String) : Bool :=
  strStarts moduleSpecifier "./" || strStarts moduleSpecifier "../"

/-- `resolveImportTargets`: root-relative candidates from alias-resolved paths
and, for relative specifiers, resolution against the importer's directory;
deduplicated in insertion order (JS `Set`). -/
def resolveImportTargets (file : FileNode) (entry : ImportEntry) (rootPath : String)
    (options : ScanOptions) : List String :=
  let packageRoot := options.packageRoot.getD rootPath
  let targets : List String :=
    match entry.resolvedPaths with
    | some resolved =>
      if resolved.isEmpty then []
      else resolved.foldl
        (fun acc r => insertIfAbsent acc (pathRelative rootPath (pathResolve packageRoot r))) []
    | none => []
  match entry.moduleSpecifier with
  | some ms =>
    if isRelativeModule ms then
      let importerAbs := pathResolve rootPath file.path
      let importerDir := pathDirname importerAbs
      insertIfAbsent targets (pathRelative rootPath (pathResolve importerDir ms))
    else targets
  | none => targets

/-- One counting step of the annotation pass: resolve a candidate target and
increment that node's counter. -/
def countStep (lk : List (String × Nat)) (c : Nat → Nat) (t : String) : Nat → Nat :=
  match findFileNodeByRelativePath lk t with
  | some i => fun j => if j = i then c j + 1 else c j
  | none => c

/-- The sequential counting loop of `annotateImportCounts`, keyed by each file
node's position in depth-first order (standing in for JS object identity). -/
def countsFun (files : List FileNode) (lk : List (String × Nat)) (absRoot : String)
    (options : ScanOptions) : Nat → Nat :=
  files.foldl
    (fun c g => g.imports.foldl
      (fun c e => (resolveImportTargets g e absRoot options).foldl (countStep lk) c) c)
    (fun _ => 0)

/-- Write the freshly computed counters back into the tree, matching the
depth-first numbering of `collectFileNodes`. -/
def applyCountsT (t : TreeNode) (c : Nat → Nat) (i : Nat) : TreeNode × Nat :=
  match t with
  | .file f => (.file { f with meta := { f.meta with importCount := some (c i) } }, i + 1)
  | .dir n p cs =>
    let r := applyCountsL cs c i
    (.dir n p r.1, r.2)
  where applyCountsL (ts : List TreeNode) (c : Nat → Nat) (i : Nat) : List TreeNode × Nat :=
    match ts with
    | [] => ([], i)
    | t :: ts =>
      let r₁ := applyCountsT t c i
      let r₂ := applyCountsL ts c r₁.2
      (r₁.1 :: r₂.1, r₂.2)

/-- `annotateImportCounts`: reset every counter to zero, then add one for every
resolvable candidate target of every import entry. -/
def buildIdxLookup (files : List FileNode) : List (String × Nat) :=
  (numberFrom 0 files).foldl
    (fun m p => registerPathVariants m (normalizeLookupPath p.2.path) p.1) []

def annotateImportCounts (root : TreeNode) (rootPath : String) (options : ScanOptions) :
    TreeNode :=
  let absRoot := normAbsStr rootPath
  let files := collectFileNodes root
  let lk := buildIdxLookup files
  (applyCountsT root (countsFun files lk absRoot options) 0).1

/-- `getComponentCandidates`: files whose recomputed import count is zero. -/
def getComponentCandidates (root : TreeNode) : List String :=
  ((collectFileNodes root).filter (fun f => f.meta.importCount.getD 0 = 0)).map (·.path)

/-! ## Import classifier (`src/scanner/import-parser.ts`) -/

/-- `getPackageName`: the leading package segment; scoped packages keep their
first two `/`-separated segments. -/
def getPackageName (moduleName : String) : Option String :=
  if moduleName = "" then none
  else if strStarts moduleName "@" then
    let segments := splitChar '/' moduleName
    if segments.length ≥ 2 then some (segments.getD 0 "" ++ "/" ++ segments.getD 1 "")
    else none
  else
    let pkg := (splitChar '/' moduleName).getD 0 ""
    if pkg = "" then none else some pkg

structure DepMatch where
  dependency : Option PackageReference
  devDependency : Option PackageReference
deriving DecidableEq

/-- `resolvePackageMatch`: `dependencies` first, then `devDependencies`; the JS
truthiness test also skips empty-string versions. -/
def resolvePackageMatch (moduleName : String) (packageInfo : Option PackageInfo) :
    Option DepMatch :=
  match packageInfo with
  | none => none
  | some pkgInfo =>
    match getPackageName moduleName with
    | none => none
    | some packageName =>
      match recTruthy pkgInfo.dependencies packageName with
      | some v => some ⟨some ⟨packageName, some v, "dependency"⟩, none⟩
      | none =>
        match recTruthy pkgInfo.devDependencies packageName with
        | some v => some ⟨none, some ⟨packageName, some v, "devDependency"⟩⟩
        | none => none

/-- `matchAlias`: a wildcard alias captures the middle substring; a non-wildcard
alias signals an exact match by returning the empty capture (`""`, not `null`). -/
def matchAlias (moduleName : String) («alias» : String) : Option String :=
  if ¬ strHasChar «alias» '*' then
    if moduleName = «alias» then some "" else none
  else
    let parts := splitChar '*' «alias»
    let pre := parts.getD 0 ""
    let suf := parts.getD 1 ""
    if ¬ strStarts moduleName pre then none
    else if suf ≠ "" ∧ ¬ strEnds moduleName suf then none
    else some (strDropRight (strDrop moduleName (strLen pre)) (strLen suf))

structure AliasInfo where
  «alias» : String
  paths : List String
deriving DecidableEq

/-- `resolvePathAlias`: first mapping in discovery order whose alias matches.
The JS guard is `if (!match) continue`, a *truthiness* test, so the empty
capture that `matchAlias` returns for an exact non-wildcard match (and for a
wildcard match with empty middle) is also skipped. -/
def resolvePathAlias (moduleName : String) (pathMappings : List PathMapping)
    (packageRoot : Option String) : Option AliasInfo :=
  match pathMappings with
  | [] => none
  | mapping :: rest =>
    match matchAlias moduleName mapping.«alias» with
    | none => resolvePathAlias moduleName rest packageRoot
    | some m =>
      if m = "" then resolvePathAlias moduleName rest packageRoot
      else
        let resolvedPaths := mapping.targets.map
          (fun target => if strHasChar target '*' then replaceAllChar target '*' m else target)
        let normalized :=
          match packageRoot with
          | some r => resolvedPaths.map (fun target => pathRelative r target)
          | none => resolvedPaths
        some ⟨mapping.«alias», normalized⟩

/-- The import-entry construction of `extractImports` for one parsed import
statement, given the literal module specifier extracted by the TypeScript
parser (the parser itself is the external Source Parser capability).  The
scenarios in this file configure no known registries, for which
`findRegistryDependency` returns `undefined` at its first guard, so the
registry field is `none` here. -/
def scanEntry (line : Nat) (statement : String) (moduleName : Option String)
    (options : ScanOptions) : ImportEntry :=
  let depInfo :=
    match moduleName with
    | some m => resolvePackageMatch m options.packageInfo
    | none => none
  let aliasInfo :=
    match moduleName with
    | some m => resolvePathAlias m options.pathMappings options.packageRoot
    | none => none
  let fileDependency :=
    match moduleName with
    | some m => if isRelativeModule m then some m else none
    | none => none
  { line := line, statement := statement, moduleSpecifier := moduleName,
    fileDependency := fileDependency,
    dependency := depInfo.bind (·.dependency),
    devDependency := depInfo.bind (·.devDependency),
    registryDependency := none,
    pathAlias := aliasInfo.map (·.«alias»),
    resolvedPaths := aliasInfo.map (·.paths) }

/-! ## Content-file heuristics (`src/scanner/content-files.ts`) -/

def contentSuffixes : List String :=
  [".content.ts", ".content.tsx", ".content.js", ".content.jsx"]

/-- `CONTENT_FILE_PATTERN.test`, the case-insensitive suffix test. -/
def isContentFilePath (filePath : String) : Bool :=
  contentSuffixes.any (fun suf => strEnds (strLower filePath) suf)

/-- `normalizePath` of `content-files.ts`: backslashes to forward slashes. -/
def normalizePath (value : String) : String := replaceAllChar value '\\' "/"

/-- `extractBasePath`: strip the content suffix (case-insensitively) at the end. -/
def extractBasePath (relativePath : String) : String :=
  let n := normalizePath relativePath
  match contentSuffixes.find? (fun suf => strEnds (strLower n) suf) with
  | some suf => strDropRight n (strLen suf)
  | none => n

def ensureTrailingSlash (value : String) : String :=
  if strEnds value "/" then value else value ++ "/"

/-- `recordContentFile`: push path, content-suffix-stripped base path and
containing directory onto `options.contentFiles`. -/
def recordContentFile (filePath rootPath : String) (options : ScanOptions) : ScanOptions :=
  let relativePath := normalizePath (pathRelative rootPath filePath)
  let info : ContentFileInfo :=
    { path := relativePath
      basePath := extractBasePath relativePath
      directory := normalizePath (pathDirname relativePath) }
  let info := if info.directory = "" then { info with directory := "." } else info
  { options with contentFiles := options.contentFiles ++ [info] }

/-- `Map.set` keeping the position of an existing key (JS map semantics for
maps that are iterated later). -/
def updateAssoc (m : List (String × α)) (k : String) (v : α) : List (String × α) :=
  match m with
  | [] => []
  | (k', v') :: rest => if k' = k then (k, v) :: rest else (k', v') :: updateAssoc rest k v

def assocSet (m : List (String × α)) (k : String) (v : α) : List (String × α) :=
  if (assocFind k m).isSome then updateAssoc m k v else m ++ [(k, v)]

/-- `buildBaseLookup`: group file nodes by extension-stripped path. -/
def buildBaseLookup (fileNodes : List FileNode) : List (String × List FileNode) :=
  fileNodes.foldl
    (fun lookup node =>
      let basePath := stripExtension (normalizePath node.path)
      match assocFind basePath lookup with
      | some list => updateAssoc lookup basePath (list ++ [node])
      | none => lookup ++ [(basePath, [node])])
    []

/-- `addDependency`: record a content path under a file, without duplicates. -/
def addDependency (map : List (String × List String)) (filePath contentPath : String) :
    List (String × List String) :=
  match assocFind filePath map with
  | some existing =>
    if contentPath ∈ existing then map else updateAssoc map filePath (existing ++ [contentPath])
  | none => map ++ [(filePath, [contentPath])]

/-- `buildDescendantPrefixes`: candidate directory prefixes for the fallback
match — the stripped base path, its `/index`-stripped form, and the containing
directory (the empty prefix standing for the scan root). -/
def buildDescendantPrefixes (content : ContentFileInfo) : List String :=
  let prefixes : List String := []
  let normalizedBase := normalizePath content.basePath
  let prefixes :=
    if normalizedBase ≠ "" ∧ normalizedBase ≠ "." then
      let prefixes := insertIfAbsent prefixes (ensureTrailingSlash normalizedBase)
      if strEnds normalizedBase "/index" then
        insertIfAbsent prefixes (ensureTrailingSlash (strDropRight normalizedBase 6))
      else prefixes
    else prefixes
  let directory := normalizePath content.directory
  if directory ≠ "" ∧ directory ≠ "." then
    insertIfAbsent prefixes (ensureTrailingSlash directory)
  else insertIfAbsent prefixes ""

/-- The inner `for (const prefix of prefixes) ... break` loop of
`findZeroImportTargets`: a node matches when some candidate prefix is a proper
prefix of its path with a further `/` in the remainder (at the root prefix,
when the path itself contains a `/`). -/
def nodeMatchesPrefixes (p : String) : List String → Bool
  | [] => false
  | pre :: rest =>
    if pre = "" then
      if strHasChar p '/' then true else nodeMatchesPrefixes p rest
    else if strStarts p pre ∧ strLen p > strLen pre
        ∧ strHasChar (strDrop p (strLen pre)) '/' then true
    else nodeMatchesPrefixes p rest

/-- `findZeroImportTargets`: collect every zero-import node matching some
candidate prefix. -/
def findZeroImportTargets (content : ContentFileInfo) (zeroImportNodes : List FileNode) :
    List FileNode :=
  let prefixes := buildDescendantPrefixes content
  if prefixes.isEmpty then []
  else
    zeroImportNodes.foldl
      (fun acc node =>
        if nodeMatchesPrefixes node.path prefixes then acc ++ [node] else acc)
      []

/-- `attachContentDependencies`: exact sibling matches first, then the
zero-import fallback for unmatched content files; the tree itself is never
written to (the source assigns only `options.contentDependencyMap`), so the
root is passed through unchanged. -/
def attachContentDependencies (root : TreeNode) (options : ScanOptions) :
    TreeNode × ScanOptions :=
  let contentFiles := options.contentFiles
  let fileNodes := collectFileNodes root
  if contentFiles.isEmpty then (root, { options with contentDependencyMap := some [] })
  else
    let baseLookup := buildBaseLookup fileNodes
    let step := contentFiles.foldl
      (fun (acc : List (String × List String) × List ContentFileInfo) content =>
        let normalizedBase := normalizePath content.basePath
        match assocFind normalizedBase baseLookup with
        | some ms =>
          if ms.isEmpty then (acc.1, acc.2 ++ [content])
          else (ms.foldl (fun m node => addDependency m node.path content.path) acc.1, acc.2)
        | none => (acc.1, acc.2 ++ [content]))
      ([], [])
    let depMap :=
      if step.2.isEmpty then step.1
      else
        let zeroImportNodes := fileNodes.filter (fun node => node.meta.importCount.getD 0 = 0)
        step.2.foldl
          (fun m content =>
            (findZeroImportTargets content zeroImportNodes).foldl
              (fun m node => addDependency m node.path content.path) m)
          step.1
    (root, { options with contentDependencyMap := some depMap })

/-! ## Transitive closure builder (`src/component-summary.ts`) -/

/-- `formatFileDependencyPath`: cut at the first `/src/` marker when present,
otherwise fall back to the root-relative path (or `.`). -/
def formatFileDependencyPath (absolutePath rootPath : String) : String :=
  let normalized := replaceAllChar absolutePath '\\' "/"
  match findSubIdx "/src/".data normalized.data with
  | some markerIndex => "." ++ strDrop normalized markerIndex
  | none =>
    let relative := replaceAllChar (pathRelative rootPath absolutePath) '\\' "/"
    if relative = "" then "." else relative

inductive PkgKey where
  | dependency
  | devDependency
  | registryDependency
deriving DecidableEq

def refOf (e : ImportEntry) : PkgKey → Option PackageReference
  | .dependency => e.dependency
  | .devDependency => e.devDependency
  | .registryDependency => e.registryDependency

/-- `formatPackageRef`: registry references are shortened past the last slash,
tag-qualified unless the tag is `@shadcn/ui`, and hyphen-folded when more than
one slash remains; plain package references display the bare name (no
version). -/
def formatPackageRef (ref : PackageReference) (key : PkgKey) : String :=
  match key with
  | .registryDependency =>
    let name :=
      if strHasChar ref.name '/' then
        match lastIdxOf '/' ref.name.data with
        | some i => strDrop ref.name (i + 1)
        | none => ref.name
      else ref.name
    let result := if ref.type = "@shadcn/ui" then name else ref.type ++ "/" ++ name
    if result.data.count '/' > 1 then replaceFirst result "/" "-" else result
  | _ => ref.name

/-- `collectPackageReferences`: display strings of one kind of reference in a
file's imports, deduplicated in insertion order. -/
def collectPackageReferences (file : FileNode) (key : PkgKey) : List String :=
  file.imports.foldl
    (fun acc entry =>
      match refOf entry key with
      | some ref => insertIfAbsent acc (formatPackageRef ref key)
      | none => acc)
    []

def createContentDependencyNode (relativePath : String) : FileNode :=
  { name := pathBasename relativePath, path := relativePath, imports := [],
    meta := { size := 0, modifiedAt := "", importCount := some 0 } }

/-- `collectFileDependencies`: the resolvable static import targets of a file
plus its recorded content dependencies, deduplicated by path and sorted. -/
def collectFileDependencies (file : FileNode) (fileIndex : List (String × FileNode))
    (rootPath : String) (options : ScanOptions) : List FileNode :=
  let nodes := file.imports.foldl
    (fun nodes entry =>
      (resolveImportTargets file entry rootPath options).foldl
        (fun nodes target =>
          match findFileNodeByRelativePath fileIndex target with
          | some targetNode => assocSet nodes targetNode.path targetNode
          | none => nodes)
        nodes)
    []
  let contentDeps := (assocFind file.path (options.contentDependencyMap.getD [])).getD []
  let nodes := contentDeps.foldl
    (fun nodes contentPath =>
      if (assocFind contentPath nodes).isSome then nodes
      else nodes ++ [(contentPath, createContentDependencyNode contentPath)])
    nodes
  sortLe (fun a b => strLe a.path b.path) (nodes.map (·.2))

structure ComponentSummary where
  dependencies : List String
  registryDependencies : List String
  fileDependencies : List String
deriving DecidableEq

/-- The package-reference accumulation step of `buildComponentSummary`
(dev dependencies are folded into the same `dependencies` set). -/
def addPackageRefs (node : FileNode) (summary : ComponentSummary) : ComponentSummary :=
  let deps := (collectPackageReferences node .dependency).foldl insertIfAbsent
    summary.dependencies
  let deps := (collectPackageReferences node .devDependency).foldl insertIfAbsent deps
  let regs := (collectPackageReferences node .registryDependency).foldl insertIfAbsent
    summary.registryDependencies
  { summary with dependencies := deps, registryDependencies := regs }

/-- The per-child step of the closure traversal: record the child's display
path in the file-dependency set, then descend into the child (`recurse` is the
traversal at the remaining fuel). -/
def closureVisit
    (recurse : FileNode → ComponentSummary × List String → ComponentSummary × List String)
    (rootPath : String) (sv : ComponentSummary × List String) (child : FileNode) :
    ComponentSummary × List String :=
  recurse child
    ({ sv.1 with
        fileDependencies := insertIfAbsent sv.1.fileDependencies
          (formatFileDependencyPath (pathResolve rootPath child.path) rootPath) },
      sv.2)

/-- `buildComponentSummary`, fuel-indexed: the JS function recurses on the
mutated shared `visited` set; here summary and visited set are threaded
explicitly and a fuel argument makes the recursion structural.  Theorem `c7`
below proves any fuel of at least `closureFuel` gives the same result, so the
wrapper `buildComponentSummary` (which passes that bound) is the terminating
behaviour of the source recursion. -/
def buildComponentSummaryAux (fileIndex : List (String × FileNode)) (rootPath : String)
    (options : ScanOptions) :
    Nat → FileNode → ComponentSummary × List String → ComponentSummary × List String
  | 0, _, sv => sv
  | fuel + 1, node, sv =>
    if node.path ∈ sv.2 then sv
    else
      (collectFileDependencies node fileIndex rootPath options).foldl
        (closureVisit (buildComponentSummaryAux fileIndex rootPath options fuel) rootPath)
        (addPackageRefs node sv.1, node.path :: sv.2)

/-- Every path the closure traversal can ever add to its visited set beyond the
starting candidate: paths of indexed nodes and recorded content paths. -/
def allClosurePaths (fileIndex : List (String × FileNode)) (options : ScanOptions) :
    List String :=
  fileIndex.map (fun kv => kv.2.path) ++ flatMapL (·.2) (options.contentDependencyMap.getD [])

def closureFuel (fileIndex : List (String × FileNode)) (options : ScanOptions) : Nat :=
  (allClosurePaths fileIndex options).length + 2

def buildComponentSummary (node : FileNode) (fileIndex : List (String × FileNode))
    (rootPath : String) (options : ScanOptions) : ComponentSummary :=
  (buildComponentSummaryAux fileIndex rootPath options (closureFuel fileIndex options)
    node (⟨[], [], []⟩, [])).1

def toSortedArray (values : List String) : List String := sortLe strLe values

structure RegistryFileEntry where
  path : String
  type : String
  target : String
deriving DecidableEq

/-- One entry of `buildFileEntries`: `~` display target and the extension-based
registry type, with the content-suffix override exactly as written in the
source (it tests `.content.ts` / `.content.js` only). -/
def buildFileEntry (item : String) : RegistryFileEntry :=
  let target := if strStarts item "." then replaceFirst item "." "~" else item
  let extension := pathExtname target
  let type :=
    if extension = ".tsx" ∨ extension = ".jsx" then
      if strEnds item ".content.ts" ∨ strEnds item ".content.js" then "registry:file"
      else "registry:component"
    else if extension = ".ts" ∨ extension = ".js" then
      if strEnds item ".content.ts" ∨ strEnds item ".content.js" then "registry:file"
      else "registry:lib"
    else "registry:file"
  ⟨item, type, target⟩

def buildFileEntries (items : List String) : List RegistryFileEntry :=
  items.map buildFileEntry

structure ComponentSummaryResult where
  candidatePath : String
  node : FileNode
  componentPath : String
  dependencies : List String
  registryDependencies : List String
  fileDependencies : List String
  files : List RegistryFileEntry
deriving DecidableEq

/-- `summarizeComponent`: `null` when the candidate path resolves to no indexed
node, otherwise the sorted, deduplicated closure with the candidate's own
display path always included. -/
def summarizeComponent (candidatePath : String) (fileIndex : List (String × FileNode))
    (rootPath : String) (options : ScanOptions) : Option ComponentSummaryResult :=
  match findFileNodeByRelativePath fileIndex candidatePath with
  | none => none
  | some node =>
    let summary := buildComponentSummary node fileIndex rootPath options
    let componentPath := formatFileDependencyPath (pathJoinAbs rootPath candidatePath) rootPath
    let fileDependenciesSet :=
      summary.fileDependencies.foldl insertIfAbsent (insertIfAbsent [] componentPath)
    let fileDependencies := toSortedArray fileDependenciesSet
    some
      { candidatePath := candidatePath
        node := node
        componentPath := componentPath
        dependencies := toSortedArray summary.dependencies
        registryDependencies := toSortedArray summary.registryDependencies
        fileDependencies := fileDependencies
        files := buildFileEntries fileDependencies }

/-! ## Pipeline glue and spec-side definitions -/

/-- Modelled from the spec: the assembled pipeline's scan step records every
scanned file whose name matches the content-file convention via
`recordContentFile` (§4.6 / §2 of the specification).  The call site inside
the scanner is the one piece of the pipeline not present in the provided
sources — only `recordContentFile` itself and its consumer
`attachContentDependencies` are — so the recording traversal is modelled from
the spec's words. -/
def scanRecordContentFiles (root : TreeNode) (rootPath : String) (options : ScanOptions) :
    ScanOptions :=
  (collectFileNodes root).foldl
    (fun opts node =>
      if isContentFilePath node.path then
        recordContentFile (pathJoinAbs rootPath node.path) rootPath opts
      else opts)
    options

/-- Spec-side definition for claim C1, following the spec's words: the number
of resolved edges across the whole tree some candidate target of which
resolves to the file at position `i` — each edge counted at most once. -/
def distinctEdgesResolvingTo (files : List FileNode) (lk : List (String × Nat))
    (absRoot : String) (options : ScanOptions) (i : Nat) : Nat :=
  (flatMapL (fun g => g.imports.map (fun e => resolveImportTargets g e absRoot options)) files).countP
    (fun targets => targets.any (fun t => findFileNodeByRelativePath lk t == some i))

/-- The import count of the file at `path` in an annotated tree. -/
def importCountAt (root : TreeNode) (path : String) : Option Nat :=
  match (collectFileNodes root).find? (fun f => f.path == path) with
  | some f => f.meta.importCount
  | none => none

/-- Number of closure-reachable paths not yet visited: the termination measure
of the closure traversal. -/
def unvisitedCount (fileIndex : List (String × FileNode)) (options : ScanOptions)
    (v : List String) : Nat :=
  ((allClosurePaths fileIndex options).filter (fun p => decide (p ∉ v))).length

/-- A fuel bound sufficient for the closure traversal from any starting node
with visited set `v` (theorem `c7`). -/
def closureBound (fileIndex : List (String × FileNode)) (options : ScanOptions)
    (v : List String) : Nat :=
  unvisitedCount fileIndex options v + 2

/-- Overwrite a file node's import counter (the one mutation the annotation
pass performs). -/
def setIC (f : FileNode) (n : Nat) : FileNode :=
  { f with meta := { f.meta with importCount := some n } }

/-- All candidate target strings produced across the whole tree, one entry per
`(import edge, candidate target)` pair in processing order. -/
def targetEvents (files : List FileNode) (absRoot : String) (options : ScanOptions) :
    List String :=
  flatMapL (fun g => flatMapL (fun e => resolveImportTargets g e absRoot options) g.imports) files

/-! ## Concrete scenarios used by the claims -/

/-- C2 / spec §8 end-to-end example: manifest with `left-pad@1.0.0`. -/
def c2Pkg : PackageInfo := ⟨"/root/package.json", none, none, [("left-pad", "1.0.0")], []⟩

def c2Opts : ScanOptions := ⟨some c2Pkg, [], some "/root", [], none⟩

def c2FileA : FileNode :=
  ⟨"a.ts", "a.ts", [scanEntry 1 "import './b'" (some "./b") c2Opts], ⟨10, "", none⟩⟩

def c2FileB : FileNode :=
  ⟨"b.ts", "b.ts", [scanEntry 1 "import pkg from 'left-pad'" (some "left-pad") c2Opts],
    ⟨10, "", none⟩⟩

def c2Root : TreeNode := .dir "root" "." [.file c2FileA, .file c2FileB]

def c2Annotated : TreeNode := annotateImportCounts c2Root "/root" c2Opts

def c2Index : List (String × FileNode) := buildFileIndex c2Annotated

/-- C1 counterexample: one import edge that is simultaneously a relative file
dependency and an alias match, whose two candidate targets (`b.ts` and `b`)
resolve to the same node. -/
def c1Opts : ScanOptions := ⟨none, [⟨"./*", ["/root/*.ts"], "tsconfig.json"⟩], some "/root", [], none⟩

def c1FileA : FileNode :=
  ⟨"a.ts", "a.ts", [scanEntry 1 "import './b'" (some "./b") c1Opts], ⟨10, "", none⟩⟩

def c1FileB : FileNode := ⟨"b.ts", "b.ts", [], ⟨10, "", none⟩⟩

def c1Root : TreeNode := .dir "root" "." [.file c1FileA, .file c1FileB]

def c1Annotated : TreeNode := annotateImportCounts c1Root "/root" c1Opts

/-- C4 / spec §8 content-heuristic example. -/
def c4Opts : ScanOptions := ⟨none, [], some "/root", [], none⟩

def c4Widget : FileNode := ⟨"widget.ts", "widget.ts", [], ⟨10, "", none⟩⟩

def c4Content : FileNode := ⟨"widget.content.ts", "widget.content.ts", [], ⟨10, "", none⟩⟩

def c4Root : TreeNode := .dir "root" "." [.file c4Content, .file c4Widget]

def c4Annotated : TreeNode := annotateImportCounts c4Root "/root" c4Opts

/-- The assembled pipeline for C4: scan-time content recording (spec-modelled),
then content-dependency attachment after annotation. -/
def c4OptsAttached : ScanOptions :=
  (attachContentDependencies c4Annotated (scanRecordContentFiles c4Annotated "/root" c4Opts)).2

def c4Index : List (String × FileNode) := buildFileIndex c4Annotated

/-- C6 counterexample: `b.ts` and `b/index.ts` both register the stripped key
`b`; the later registration wins. -/
def c6IndexFile : FileNode := ⟨"index.ts", "b/index.ts", [], ⟨10, "", none⟩⟩

def c6BFile : FileNode := ⟨"b.ts", "b.ts", [], ⟨10, "", none⟩⟩

def c6Root : TreeNode := .dir "root" "." [.dir "b" "b" [.file c6IndexFile], .file c6BFile]

/-- C6 witness scenario: a tree whose registered key sets are pairwise
disjoint. -/
def c6wFileAB : FileNode := ⟨"b.ts", "a/b.ts", [], ⟨10, "", none⟩⟩

def c6wFileC : FileNode := ⟨"index.ts", "c/index.ts", [], ⟨10, "", none⟩⟩

def c6wRoot : TreeNode :=
  .dir "root" "." [.dir "a" "a" [.file c6wFileAB], .dir "c" "c" [.file c6wFileC]]

/-- C7 cycle scenario: two files importing each other. -/
def c7Opts : ScanOptions := ⟨none, [], some "/root", [], none⟩

def c7FileA : FileNode :=
  ⟨"a.ts", "a.ts", [scanEntry 1 "import './b'" (some "./b") c7Opts], ⟨10, "", none⟩⟩

def c7FileB : FileNode :=
  ⟨"b.ts", "b.ts", [scanEntry 1 "import './a'" (some "./a") c7Opts], ⟨10, "", none⟩⟩

def c7Root : TreeNode := .dir "root" "." [.file c7FileA, .file c7FileB]

def c7Index : List (String × FileNode) := buildFileIndex c7Root

/-- C8 counterexample: an unmatched content file in `dir` and a zero-import
sibling directly in `dir`. -/
def c8Content : ContentFileInfo := ⟨"dir/c.content.ts", "dir/c", "dir"⟩

def c8NodeA : FileNode := ⟨"a.ts", "dir/a.ts", [], ⟨10, "", some 0⟩⟩

def c8NodeDeep : FileNode := ⟨"x.ts", "dir/sub/x.ts", [], ⟨10, "", some 0⟩⟩

/-- C3 failing input: a non-wildcard alias equal to the specifier. -/
def c3Mapping : PathMapping := ⟨"@app/utils", ["/root/src/utils.ts"], "tsconfig.json"⟩

/-- Spec-level predicate for C8 (from the spec's words plus the depth
condition the code actually enforces): the node path lies strictly below the
prefix directory, at least one directory level deeper. -/
def MatchesUnderWithDepth (pre p : String) : Prop :=
  (pre = "" ∧ '/' ∈ p.data) ∨
  (pre ≠ "" ∧ strStarts p pre = true ∧ strLen pre < strLen p ∧
    '/' ∈ (strDrop p (strLen pre)).data)

instance (pre p : String) : Decidable (MatchesUnderWithDepth pre p) := by
  unfold MatchesUnderWithDepth; infer_instance

/-! ## General-purpose lemmas -/

theorem foldl_ite_append_eq_filter (p : α → Bool) (l : List α) :
    ∀ acc : List α,
      l.foldl (fun acc a => if p a then acc ++ [a] else acc) acc = acc ++ l.filter p := by
  induction l with
  | nil => intro acc; simp
  | cons a as ih =>
    intro acc
    by_cases h : p a <;> simp [List.foldl_cons, h, ih, List.filter_cons]

theorem mem_insertLe (le : α → α → Bool) (x a : α) (l : List α) :
    x ∈ insertLe le a l ↔ x = a ∨ x ∈ l := by
  induction l with
  | nil => simp [insertLe]
  | cons b bs ih =>
    by_cases h : le a b = true <;> simp [insertLe, h, ih] <;> tauto

theorem mem_sortLe (le : α → α → Bool) (x : α) (l : List α) :
    x ∈ sortLe le l ↔ x ∈ l := by
  induction l with
  | nil => simp [sortLe]
  | cons a as ih => simp [sortLe, mem_insertLe, ih]

theorem mem_insertIfAbsent [DecidableEq α] (x a : α) (l : List α) :
    x ∈ insertIfAbsent l a ↔ x = a ∨ x ∈ l := by
  unfold insertIfAbsent
  by_cases h : a ∈ l
  · simp only [if_pos h]
    exact ⟨Or.inr, fun hx => hx.elim (fun e => e ▸ h) id⟩
  · simp [if_neg h, or_comm]

theorem nodup_insertIfAbsent [DecidableEq α] (a : α) (l : List α) (h : l.Nodup) :
    (insertIfAbsent l a).Nodup := by
  unfold insertIfAbsent
  by_cases hm : a ∈ l
  · simpa [hm] using h
  · simp only [if_neg hm]
    refine List.Nodup.append h (by simp) ?_
    intro b hb hb'
    simp at hb'
    subst hb'
    exact hm hb

theorem foldl_invariant {P : α → Prop} (step : α → β → α) (l : List β) :
    ∀ acc, P acc → (∀ a b, P a → P (step a b)) → P (l.foldl step acc) := by
  induction l with
  | nil => intro acc h _; exact h
  | cons b bs ih => intro acc h hstep; exact ih (step acc b) (hstep acc b h) hstep

theorem assocFind_mem_values {m : List (String × α)} {k : String} {v : α}
    (h : assocFind k m = some v) : v ∈ m.map (·.2) := by
  induction m with
  | nil => simp [assocFind] at h
  | cons kv rest ih =>
    obtain ⟨k', v'⟩ := kv
    by_cases he : k = k'
    · simp [assocFind, he] at h
      simp [h]
    · simp [assocFind, he] at h
      simpa using Or.inr (ih h)

theorem assocFind_flatMap_mem {m : List (String × List String)} {k x : String}
    {l : List String} (h : assocFind k m = some l) (hx : x ∈ l) :
    x ∈ flatMapL (·.2) m := by
  induction m with
  | nil => simp [assocFind] at h
  | cons kv rest ih =>
    obtain ⟨k', v'⟩ := kv
    by_cases he : k = k'
    · simp [assocFind, he] at h
      subst h
      exact (by simpa [flatMapL] using Or.inl hx)
    · simp [assocFind, he] at h
      simpa [flatMapL] using Or.inr (ih h)

/-! ## Claim C10: totality and candidate-path preservation of
`summarizeComponent` -/

/-- C10: `summarizeComponent` returns `none` exactly when the candidate path
resolves to no node in the index (no exception path exists), and any returned
result carries the requested candidate path. -/
theorem c10_summarize_total (candidatePath : String) (fileIndex : List (String × FileNode))
    (rootPath : String) (options : ScanOptions) :
    ((summarizeComponent candidatePath fileIndex rootPath options = none) ↔
      findFileNodeByRelativePath fileIndex candidatePath = none)
    ∧ Option.all (fun r => r.candidatePath == candidatePath)
        (summarizeComponent candidatePath fileIndex rootPath options) = true := by
  unfold summarizeComponent
  cases h : findFileNodeByRelativePath fileIndex candidatePath <;> simp [Option.all]

/-! ## Claim C9: `attachContentDependencies` only assigns the content map -/

/-- C9: content-dependency attachment passes the tree through untouched (every
node, hence every `importCount` and the candidate set, is unchanged), always
assigns `contentDependencyMap`, assigns the empty map when no content files
were recorded, and leaves every other option field unchanged. -/
theorem c9_attach_frame (root : TreeNode) (options : ScanOptions) :
    (attachContentDependencies root options).1 = root
    ∧ ((attachContentDependencies root options).2.contentDependencyMap).isSome = true
    ∧ (attachContentDependencies root options).2.packageInfo = options.packageInfo
    ∧ (attachContentDependencies root options).2.pathMappings = options.pathMappings
    ∧ (attachContentDependencies root options).2.packageRoot = options.packageRoot
    ∧ (attachContentDependencies root options).2.contentFiles = options.contentFiles
    ∧ getComponentCandidates (attachContentDependencies root options).1
        = getComponentCandidates root
    ∧ (options.contentFiles = [] →
        (attachContentDependencies root options).2.contentDependencyMap = some []) := by
  unfold attachContentDependencies
  by_cases h : options.contentFiles.isEmpty <;>
    simp [h] <;>
    intro heq <;>
    simp [heq] at h

/-- C9 witness: a concrete run with no recorded content files. -/
theorem c9_attach_frame_witness :
    (c4Opts.contentFiles = []) ∧
      (attachContentDependencies c4Root c4Opts).2.contentDependencyMap = some [] :=
  ⟨rfl, (c9_attach_frame c4Root c4Opts).2.2.2.2.2.2.2 rfl⟩

/-! ## Claim C3: exact non-wildcard alias matches are dropped (code bug) -/

/-- C3: because `resolvePathAlias` guards with the JS truthiness test
`if (!match) continue`, and `matchAlias` reports an exact non-wildcard match
with the empty capture `""`, a mapping set of wildcard-free aliases can never
produce an alias resolution — the exact match the spec promises is skipped. -/
theorem c3_nonwildcard_never_matches (moduleName : String) (pathMappings : List PathMapping)
    (packageRoot : Option String)
    (h : ∀ m ∈ pathMappings, strHasChar m.«alias» '*' = false) :
    resolvePathAlias moduleName pathMappings packageRoot = none := by
  induction pathMappings with
  | nil => rfl
  | cons mapping rest ih =>
    have hm : strHasChar mapping.«alias» '*' = false := h mapping (by simp)
    have hr : resolvePathAlias moduleName rest packageRoot = none :=
      ih (fun m hmem => h m (by simp [hmem]))
    unfold resolvePathAlias
    unfold matchAlias
    by_cases he : moduleName = mapping.«alias»
    · rw [he] at hr
      simp [hm, he, hr]
    · simp [hm, he, hr]

/-- C3 witness and failing input: the specifier equals the configured
non-wildcard alias `@app/utils`, yet alias resolution fails. -/
theorem c3_nonwildcard_witness :
    (∀ m ∈ [c3Mapping], strHasChar m.«alias» '*' = false)
    ∧ resolvePathAlias "@app/utils" [c3Mapping] (some "/root") = none :=
  ⟨by decide, c3_nonwildcard_never_matches "@app/utils" [c3Mapping] (some "/root") (by decide)⟩

/-! ## Claim C5: the content-suffix override covers only `.content.ts` and
`.content.js` (code bug for `.content.tsx` / `.content.jsx`) -/

/-- C5: a `.content.tsx` path is classified `registry:component`, not
`registry:file` — the source's override tests `.content.ts`/`.content.js`
only, which can never hit in the `.tsx`/`.jsx` branch — while a `.content.ts`
path is classified `registry:file` as the claim states. -/
theorem c5_content_tsx_not_file :
    buildFileEntries ["a.content.tsx"]
        = [⟨"a.content.tsx", "registry:component", "a.content.tsx"⟩]
    ∧ buildFileEntries ["a.content.jsx"]
        = [⟨"a.content.jsx", "registry:component", "a.content.jsx"⟩]
    ∧ buildFileEntries ["a.content.ts", "a.content.js", "w.tsx", "w.ts", "w.md"]
        = [⟨"a.content.ts", "registry:file", "a.content.ts"⟩,
           ⟨"a.content.js", "registry:file", "a.content.js"⟩,
           ⟨"w.tsx", "registry:component", "w.tsx"⟩,
           ⟨"w.ts", "registry:lib", "w.ts"⟩,
           ⟨"w.md", "registry:file", "w.md"⟩] := by decide

/-! ## Claim C2: the end-to-end example (dependencies display name-only) -/

/-- C2 counterexample: the closure's package dependency display string is
`left-pad`, not `left-pad@1.0.0` — `formatPackageRef` returns the bare name
for plain dependencies. -/
theorem c2_counterexample :
    (summarizeComponent "a.ts" c2Index "/root" c2Opts).map (·.dependencies)
      ≠ some ["left-pad@1.0.0"] := by decide

/-- C2 amended: in the end-to-end example, `a.ts` is the sole component
candidate with import count 0, `b.ts` has import count 1, and the closure of
`a.ts` has file dependencies `a.ts`, `b.ts` and package dependency display
string `left-pad` (name only, no version). -/
theorem c2_amended :
    importCountAt c2Annotated "a.ts" = some 0
    ∧ importCountAt c2Annotated "b.ts" = some 1
    ∧ getComponentCandidates c2Annotated = ["a.ts"]
    ∧ (summarizeComponent "a.ts" c2Index "/root" c2Opts).map (·.fileDependencies)
        = some ["a.ts", "b.ts"]
    ∧ (summarizeComponent "a.ts" c2Index "/root" c2Opts).map (·.dependencies)
        = some ["left-pad"] := by decide

/-! ## Claim C4: the content-heuristic pipeline example -/

/-- C4: with `widget.ts` a zero-import candidate and its statically unreferenced
sibling `widget.content.ts`, the assembled pipeline (scan with content
recording, import-count annotation, content-dependency attachment) produces a
closure for `widget.ts` that includes `widget.content.ts` as a file dependency
of type `registry:file`. -/
theorem c4_content_heuristic :
    importCountAt c4Annotated "widget.ts" = some 0
    ∧ "widget.ts" ∈ getComponentCandidates c4Annotated
    ∧ (summarizeComponent "widget.ts" c4Index "/root" c4OptsAttached).map (·.fileDependencies)
        = some ["widget.content.ts", "widget.ts"]
    ∧ (summarizeComponent "widget.ts" c4Index "/root" c4OptsAttached).map (·.files)
        = some [⟨"widget.content.ts", "registry:file", "widget.content.ts"⟩,
                ⟨"widget.ts", "registry:lib", "widget.ts"⟩] := by decide

/-! ## Claim C1 counterexample: one edge can count twice -/

/-- C1 counterexample: in `c1Root`, the single import edge of `a.ts` carries
both an alias-resolved candidate `b.ts` and the relative candidate `b`; both
resolve to the node `b.ts`, whose annotated import count is therefore 2,
while only one distinct resolved edge targets it. -/
theorem c1_counterexample :
    (collectFileNodes c1Root).map (·.path) = ["a.ts", "b.ts"]
    ∧ importCountAt c1Annotated "b.ts" = some 2
    ∧ distinctEdgesResolvingTo (collectFileNodes c1Root)
        (buildIdxLookup (collectFileNodes c1Root)) (normAbsStr "/root") c1Opts 1 = 1 := by decide

/-! ## Claim C8: the zero-import fallback and its depth condition -/

theorem strHasChar_iff (s : String) (c : Char) : strHasChar s c = true ↔ c ∈ s.data := by
  simp [strHasChar, List.contains, List.elem_iff]

/-- The first-match prefix loop succeeds exactly when some candidate prefix
matches in the spec-level sense. -/
theorem nodeMatchesPrefixes_iff (p : String) (l : List String) :
    nodeMatchesPrefixes p l = true ↔ ∃ pre ∈ l, MatchesUnderWithDepth pre p := by
  induction l with
  | nil => simp [nodeMatchesPrefixes]
  | cons pre rest ih =>
    unfold nodeMatchesPrefixes
    by_cases h1 : pre = ""
    · subst h1
      by_cases h2 : strHasChar p '/' = true
      · simp only [if_pos rfl, h2, if_true, true_iff]
        exact ⟨"", List.mem_cons_self _ _,
          Or.inl ⟨rfl, (strHasChar_iff p '/').mp h2⟩⟩
      · simp only [if_pos rfl, h2, if_false]
        constructor
        · intro hr
          obtain ⟨q, hq, hm⟩ := ih.mp hr
          exact ⟨q, List.mem_cons_of_mem _ hq, hm⟩
        · rintro ⟨q, hq, hm⟩
          rcases List.mem_cons.mp hq with rfl | hq'
          · rcases hm with ⟨_, hc⟩ | ⟨hne, _⟩
            · exact absurd ((strHasChar_iff p '/').mpr hc) h2
            · exact absurd rfl hne
          · exact ih.mpr ⟨q, hq', hm⟩
    · rw [if_neg h1]
      by_cases h3 : (strStarts p pre = true ∧ strLen p > strLen pre
          ∧ strHasChar (strDrop p (strLen pre)) '/' = true)
      · rw [if_pos h3]
        simp only [true_iff]
        exact ⟨pre, List.mem_cons_self _ _,
          Or.inr ⟨h1, h3.1, h3.2.1, (strHasChar_iff _ '/').mp h3.2.2⟩⟩
      · rw [if_neg h3]
        constructor
        · intro hr
          obtain ⟨q, hq, hm⟩ := ih.mp hr
          exact ⟨q, List.mem_cons_of_mem _ hq, hm⟩
        · rintro ⟨q, hq, hm⟩
          rcases List.mem_cons.mp hq with rfl | hq'
          · rcases hm with ⟨hqe, _⟩ | ⟨_, hs, hlen, hc⟩
            · exact absurd hqe h1
            · exact absurd ⟨hs, hlen, (strHasChar_iff _ '/').mpr hc⟩ h3
          · exact ih.mpr ⟨q, hq', hm⟩

/-- C8 counterexample: `dir/a.ts` has zero incoming edges and lies directly
under the containing directory `dir` of the unmatched content file
`dir/c.content.ts`, yet the fallback records no synthetic edge for it. -/
theorem c8_counterexample :
    findZeroImportTargets c8Content [c8NodeA] = []
    ∧ strStarts c8NodeA.path (ensureTrailingSlash c8Content.directory) = true := by decide

/-- C8 amended: the fallback returns exactly the zero-import nodes matching
some candidate prefix with at least one further directory level in the path
remainder — and therefore records *all* such nodes, not only the first. -/
theorem c8_fallback_targets (content : ContentFileInfo) (zeroImportNodes : List FileNode) :
    findZeroImportTargets content zeroImportNodes
      = zeroImportNodes.filter
          (fun n => nodeMatchesPrefixes n.path (buildDescendantPrefixes content))
    ∧ ∀ n : FileNode,
        n ∈ findZeroImportTargets content zeroImportNodes ↔
          n ∈ zeroImportNodes
          ∧ ∃ pre ∈ buildDescendantPrefixes content, MatchesUnderWithDepth pre n.path := by
  have hfilter : findZeroImportTargets content zeroImportNodes
      = zeroImportNodes.filter
          (fun n => nodeMatchesPrefixes n.path (buildDescendantPrefixes content)) := by
    unfold findZeroImportTargets
    by_cases h : (buildDescendantPrefixes content).isEmpty
    · have hP : buildDescendantPrefixes content = [] := by simpa using h
      simp [h, hP, nodeMatchesPrefixes]
    · rw [if_neg h]
      simpa using foldl_ite_append_eq_filter
        (fun n : FileNode => nodeMatchesPrefixes n.path (buildDescendantPrefixes content))
        zeroImportNodes []
  refine ⟨hfilter, ?_⟩
  intro n
  rw [hfilter]
  simp [List.mem_filter, nodeMatchesPrefixes_iff]

/-- C8 witness: the strictly-deeper zero-import file `dir/sub/x.ts` is
recorded (even alongside other matches). -/
theorem c8_fallback_targets_witness :
    c8NodeDeep ∈ findZeroImportTargets c8Content [c8NodeA, c8NodeDeep] :=
  ((c8_fallback_targets c8Content [c8NodeA, c8NodeDeep]).2 c8NodeDeep).mpr
    ⟨by decide, "dir/", by decide, by decide⟩

/-! ## Claim C6: path-variant lookup symmetry -/

theorem assocFind_registerPathVariants (m : List (String × α)) (p : String) (v : α)
    (k : String) :
    assocFind k (registerPathVariants m p v)
      = if k ∈ fileKeys p then some v else assocFind k m := by
  unfold registerPathVariants fileKeys mapSet
  by_cases h1 : stripExtension p ≠ p <;>
    by_cases h2 : stripIndex (stripExtension p) ≠ ""
        ∧ stripIndex (stripExtension p) ≠ stripExtension p <;>
      by_cases e1 : k = p <;>
        by_cases e2 : k = stripExtension p <;>
          by_cases e3 : k = stripIndex (stripExtension p) <;>
            simp [assocFind, h1, h2, e1, e2, e3] <;>
              split_ifs <;> first | rfl | tauto

theorem mem_fileKeys_self (p : String) : p ∈ fileKeys p := by
  unfold fileKeys; simp

theorem mem_fileKeys_stripExt (p : String) (h : stripExtension p ≠ p) :
    stripExtension p ∈ fileKeys p := by
  unfold fileKeys; simp [h]

theorem mem_fileKeys_stripIdx (p : String) (h : stripExtension p ≠ p)
    (h2 : stripIndex (stripExtension p) ≠ "") :
    stripIndex (stripExtension p) ∈ fileKeys p := by
  unfold fileKeys
  by_cases hw : stripIndex (stripExtension p) = stripExtension p
  · simp [h, hw]
  · simp [h, hw, h2]

theorem assocFind_buildFold_of_not_keys (value : FileNode → α) (files : List FileNode)
    (k : String) :
    ∀ m : List (String × α),
      (∀ g ∈ files, k ∉ fileKeys (normalizeLookupPath g.path)) →
      assocFind k
          (files.foldl (fun m f => registerPathVariants m (normalizeLookupPath f.path) (value f)) m)
        = assocFind k m := by
  induction files with
  | nil => intro m _; rfl
  | cons g gs ih =>
    intro m h
    rw [List.foldl_cons, ih _ (fun g' hg' => h g' (List.mem_cons_of_mem _ hg')),
      assocFind_registerPathVariants]
    rw [if_neg (h g (List.mem_cons_self _ _))]

theorem assocFind_buildFold_some (value : FileNode → α) (files : List FileNode)
    (f : FileNode) (k : String) (hk : k ∈ fileKeys (normalizeLookupPath f.path)) :
    ∀ m : List (String × α),
      f ∈ files →
      (∀ g ∈ files, g ≠ f → k ∉ fileKeys (normalizeLookupPath g.path)) →
      assocFind k
          (files.foldl (fun m f => registerPathVariants m (normalizeLookupPath f.path) (value f)) m)
        = some (value f) := by
  induction files with
  | nil => intro m hf; exact absurd hf (by simp)
  | cons g gs ih =>
    intro m hf hdisj
    rw [List.foldl_cons]
    by_cases hfg : f ∈ gs
    · exact ih _ hfg (fun g' hg' hne => hdisj g' (List.mem_cons_of_mem _ hg') hne)
    · have hgf : g = f := by
        rcases List.mem_cons.mp hf with h | h
        · exact h.symm
        · exact absurd h hfg
      subst hgf
      have hnone : ∀ g' ∈ gs, k ∉ fileKeys (normalizeLookupPath g'.path) := by
        intro g' hg'
        refine hdisj g' (List.mem_cons_of_mem _ hg') ?_
        intro he
        exact hfg (he ▸ hg')
      rw [assocFind_buildFold_of_not_keys value gs k _ hnone,
        assocFind_registerPathVariants, if_pos hk]

theorem findFileNode_of_assocFind_some {idx : List (String × FileNode)} {q : String}
    {f : FileNode} (h : assocFind (normalizeLookupPath q) idx = some f) :
    findFileNodeByRelativePath idx q = some f := by
  unfold findFileNodeByRelativePath
  simp [h]

/-- C6 counterexample: in `c6Root`, the node `b/index.ts` exists, its exact and
extension-stripped lookups return it, but the `./b` lookup returns the other
node `b.ts` — the later registration overwrote the shared key `b`. -/
theorem c6_counterexample :
    c6IndexFile ∈ collectFileNodes c6Root
    ∧ findFileNodeByRelativePath (buildFileIndex c6Root) "b/index.ts" = some c6IndexFile
    ∧ findFileNodeByRelativePath (buildFileIndex c6Root) "./b" ≠ some c6IndexFile
    ∧ findFileNodeByRelativePath (buildFileIndex c6Root) "./b" = some c6BFile := by decide

/-- C6 amended: for a scanned file whose (normal-form) path carries an
extension, the exact lookup, the extension-stripped lookup, and the
`./`-qualified `/index`-stripped base lookup all return that node, *provided*
no other scanned file registers an overlapping key variant. -/
theorem c6_lookup_symmetry (root : TreeNode) (f : FileNode)
    (hf : f ∈ collectFileNodes root)
    (hnorm : normalizeLookupPath f.path = f.path)
    (hext : stripExtension f.path ≠ f.path)
    (hbase : stripIndex (stripExtension f.path) ≠ "")
    (hq1 : normalizeLookupPath (stripExtension f.path) = stripExtension f.path)
    (hq2 : normalizeLookupPath ("./" ++ stripIndex (stripExtension f.path))
        = stripIndex (stripExtension f.path))
    (hdisj : ∀ g ∈ collectFileNodes root, g ≠ f →
        ∀ k ∈ fileKeys (normalizeLookupPath g.path), k ∉ fileKeys f.path) :
    findFileNodeByRelativePath (buildFileIndex root) f.path = some f
    ∧ findFileNodeByRelativePath (buildFileIndex root) (stripExtension f.path) = some f
    ∧ findFileNodeByRelativePath (buildFileIndex root)
        ("./" ++ stripIndex (stripExtension f.path)) = some f := by
  have hdisj' : ∀ k, k ∈ fileKeys f.path →
      ∀ g ∈ collectFileNodes root, g ≠ f → k ∉ fileKeys (normalizeLookupPath g.path) := by
    intro k hk g hg hne hkg
    exact hdisj g hg hne k hkg hk
  have key : ∀ k, k ∈ fileKeys f.path →
      assocFind k (buildFileIndex root) = some f := by
    intro k hk
    have := assocFind_buildFold_some id (collectFileNodes root) f k
      (by rw [hnorm]; exact hk) [] hf (hdisj' k hk)
    simpa [buildFileIndex, buildFileLookupGen] using this
  refine ⟨?_, ?_, ?_⟩
  · exact findFileNode_of_assocFind_some (by rw [hnorm]; exact key _ (mem_fileKeys_self _))
  · exact findFileNode_of_assocFind_some
      (by rw [hq1]; exact key _ (mem_fileKeys_stripExt _ hext))
  · exact findFileNode_of_assocFind_some
      (by rw [hq2]; exact key _ (mem_fileKeys_stripIdx _ hext hbase))

/-- C6 witness: in the collision-free tree `c6wRoot`, the three lookups for
`a/b.ts` (exact, extension-stripped `a/b`, and `./a/b`) all return its node. -/
theorem c6_lookup_symmetry_witness :
    findFileNodeByRelativePath (buildFileIndex c6wRoot) "a/b.ts" = some c6wFileAB
    ∧ findFileNodeByRelativePath (buildFileIndex c6wRoot) "a/b" = some c6wFileAB
    ∧ findFileNodeByRelativePath (buildFileIndex c6wRoot) "./a/b" = some c6wFileAB := by
  have h := c6_lookup_symmetry c6wRoot c6wFileAB (by decide) (by decide) (by decide)
    (by decide) (by decide) (by decide) (by decide)
  exact ⟨h.1, h.2.1, h.2.2⟩

/-! ## Claim C1: characterisation of the annotated import counts -/

theorem countStep_apply (lk : List (String × Nat)) (c : Nat → Nat) (t : String) (j : Nat) :
    countStep lk c t j
      = c j + (if findFileNodeByRelativePath lk t = some j then 1 else 0) := by
  unfold countStep
  cases h : findFileNodeByRelativePath lk t with
  | none => simp
  | some i =>
    by_cases hj : j = i
    · subst hj; simp
    · simp [hj, Ne.symm hj]

theorem foldl_countStep (lk : List (String × Nat)) (ts : List String) :
    ∀ (c : Nat → Nat) (j : Nat),
      (ts.foldl (countStep lk) c) j
        = c j + ts.countP (fun t => findFileNodeByRelativePath lk t == some j) := by
  induction ts with
  | nil => intro c j; simp
  | cons t ts ih =>
    intro c j
    rw [List.foldl_cons, ih, countStep_apply, List.countP_cons]
    by_cases hfd : findFileNodeByRelativePath lk t = some j <;>
      simp [hfd] <;> omega

theorem countsFun_eq (files : List FileNode) (lk : List (String × Nat)) (absRoot : String)
    (options : ScanOptions) (j : Nat) :
    countsFun files lk absRoot options j
      = (targetEvents files absRoot options).countP
          (fun t => findFileNodeByRelativePath lk t == some j) := by
  suffices h : ∀ (fs : List FileNode) (c : Nat → Nat) (j : Nat),
      (fs.foldl
        (fun c g => g.imports.foldl
          (fun c e => (resolveImportTargets g e absRoot options).foldl (countStep lk) c) c)
        c) j
        = c j + (targetEvents fs absRoot options).countP
            (fun t => findFileNodeByRelativePath lk t == some j) by
    have := h files (fun _ => 0) j
    simpa [countsFun] using this
  intro fs
  induction fs with
  | nil => intro c j; simp [targetEvents, flatMapL]
  | cons g gs ihg =>
    intro c j
    have hin : ∀ (es : List ImportEntry) (c : Nat → Nat) (j : Nat),
        (es.foldl
          (fun c e => (resolveImportTargets g e absRoot options).foldl (countStep lk) c) c) j
          = c j + (flatMapL (fun e => resolveImportTargets g e absRoot options) es).countP
              (fun t => findFileNodeByRelativePath lk t == some j) := by
      intro es
      induction es with
      | nil => intro c j; simp [flatMapL]
      | cons e es ihe =>
        intro c j
        rw [List.foldl_cons, ihe, foldl_countStep]
        simp [flatMapL, List.countP_append]
        omega
    rw [List.foldl_cons, ihg, hin]
    simp [targetEvents, flatMapL, List.countP_append]
    omega

theorem numberFrom_append (i : Nat) (a b : List α) :
    numberFrom i (a ++ b) = numberFrom i a ++ numberFrom (i + a.length) b := by
  induction a generalizing i with
  | nil => simp [numberFrom]
  | cons x xs ih =>
    simp [numberFrom, ih (i + 1)]
    congr 1
    omega

mutual

theorem applyT_spec : ∀ (t : TreeNode) (c : Nat → Nat) (i : Nat),
    (applyCountsT t c i).2 = i + (collectFileNodes t).length
    ∧ collectFileNodes (applyCountsT t c i).1
        = (numberFrom i (collectFileNodes t)).map (fun q => setIC q.2 (c q.1))
  | .file f, c, i => by
    simp [applyCountsT, collectFileNodes, numberFrom, setIC]
  | .dir nm p cs, c, i => by
    have h := applyL_spec cs c i
    simp [applyCountsT, collectFileNodes, h.1, h.2]

theorem applyL_spec : ∀ (ts : List TreeNode) (c : Nat → Nat) (i : Nat),
    (applyCountsT.applyCountsL ts c i).2 = i + (collectFileNodes.collectList ts).length
    ∧ collectFileNodes.collectList (applyCountsT.applyCountsL ts c i).1
        = (numberFrom i (collectFileNodes.collectList ts)).map (fun q => setIC q.2 (c q.1))
  | [], c, i => by
    simp [applyCountsT.applyCountsL, collectFileNodes.collectList, numberFrom]
  | t :: ts, c, i => by
    have h1 := applyT_spec t c i
    have h2 := applyL_spec ts c (applyCountsT t c i).2
    simp only [applyCountsT.applyCountsL, collectFileNodes.collectList, List.length_append]
    rw [h2.1, h2.2, h1.1, h1.2, numberFrom_append, List.map_append]
    exact ⟨by omega, rfl⟩

end

/-- C1 amended: after the annotation pass, the import counter of the file at
depth-first position `q.1` equals the number of `(edge, candidate target)`
events whose candidate resolves to that position — a pure function of the
tree's paths and imports (prior counters do not occur on the right-hand side,
so every counter is recomputed from scratch; `Nat` counts are trivially
nonnegative) — and the counting loop is order-independent: any permutation of
the event list yields the same counters. -/
theorem c1_amended_counts (root : TreeNode) (rootPath : String) (options : ScanOptions) :
    collectFileNodes (annotateImportCounts root rootPath options)
      = (numberFrom 0 (collectFileNodes root)).map
          (fun q => setIC q.2
            ((targetEvents (collectFileNodes root) (normAbsStr rootPath) options).countP
              (fun t =>
                findFileNodeByRelativePath (buildIdxLookup (collectFileNodes root)) t
                  == some q.1)))
    ∧ ∀ (lk : List (String × Nat)) (evs evs' : List String), evs.Perm evs' →
        ∀ (c : Nat → Nat) (j : Nat),
          (evs.foldl (countStep lk) c) j = (evs'.foldl (countStep lk) c) j := by
  constructor
  · show collectFileNodes (applyCountsT root
        (countsFun (collectFileNodes root) (buildIdxLookup (collectFileNodes root))
          (normAbsStr rootPath) options) 0).1 = _
    rw [(applyT_spec root _ 0).2]
    simp only [countsFun_eq]
  · intro lk evs evs' hperm c j
    rw [foldl_countStep, foldl_countStep, hperm.countP_eq]

/-- C1 witness: the two candidate targets of the `c1Root` edge processed in
either order give the same counter for `b.ts` (position 1). -/
theorem c1_amended_counts_witness :
    (["b.ts", "b"].Perm ["b", "b.ts"])
    ∧ (["b.ts", "b"].foldl (countStep (buildIdxLookup (collectFileNodes c1Root)))
        (fun _ => 0)) 1
      = (["b", "b.ts"].foldl (countStep (buildIdxLookup (collectFileNodes c1Root)))
        (fun _ => 0)) 1 :=
  ⟨by decide,
    (c1_amended_counts c1Root "/root" c1Opts).2
      (buildIdxLookup (collectFileNodes c1Root)) ["b.ts", "b"] ["b", "b.ts"] (by decide)
      (fun _ => 0) 1⟩

/-! ## Claim C7: termination and cycle safety of the closure traversal -/

theorem foldl_invariant_mem {P : α → Prop} (step : α → β → α) (l : List β) :
    ∀ acc, P acc → (∀ a b, b ∈ l → P a → P (step a b)) → P (l.foldl step acc) := by
  induction l with
  | nil => intro acc h _; exact h
  | cons b bs ih =>
    intro acc h hstep
    exact ih (step acc b) (hstep acc b (List.mem_cons_self _ _) h)
      (fun a b' hb' ha => hstep a b' (List.mem_cons_of_mem _ hb') ha)

theorem mem_updateAssoc {m : List (String × α)} {k : String} {v : α} :
    ∀ x ∈ updateAssoc m k v, x = (k, v) ∨ x ∈ m := by
  induction m with
  | nil => intro x hx; simp [updateAssoc] at hx
  | cons kv rest ih =>
    intro x hx
    obtain ⟨k', v'⟩ := kv
    unfold updateAssoc at hx
    by_cases he : k' = k
    · rw [if_pos he] at hx
      rcases List.mem_cons.mp hx with rfl | hx'
      · exact Or.inl rfl
      · exact Or.inr (List.mem_cons_of_mem _ hx')
    · rw [if_neg he] at hx
      rcases List.mem_cons.mp hx with rfl | hx'
      · exact Or.inr (List.mem_cons_self _ _)
      · rcases ih x hx' with h | h
        · exact Or.inl h
        · exact Or.inr (List.mem_cons_of_mem _ h)

theorem mem_assocSet {m : List (String × α)} {k : String} {v : α} :
    ∀ x ∈ assocSet m k v, x = (k, v) ∨ x ∈ m := by
  intro x hx
  unfold assocSet at hx
  by_cases h : (assocFind k m).isSome
  · rw [if_pos h] at hx
    exact mem_updateAssoc x hx
  · rw [if_neg h] at hx
    rcases List.mem_append.mp hx with h' | h'
    · exact Or.inr h'
    · exact Or.inl (by simpa using h')

theorem findFileNode_mem_values {idx : List (String × FileNode)} {q : String} {v : FileNode}
    (h : findFileNodeByRelativePath idx q = some v) : v ∈ idx.map (·.2) := by
  unfold findFileNodeByRelativePath at h
  cases h1 : assocFind (normalizeLookupPath q) idx with
  | some w =>
    rw [h1] at h
    simp at h
    exact h ▸ assocFind_mem_values h1
  | none =>
    rw [h1] at h
    cases h2 : assocFind (stripExtension (normalizeLookupPath q)) idx with
    | some w =>
      rw [h2] at h
      simp at h
      exact h ▸ assocFind_mem_values h2
    | none =>
      rw [h2] at h
      simp at h
      exact assocFind_mem_values h

theorem path_mem_allClosurePaths_of_indexed {idx : List (String × FileNode)}
    {opts : ScanOptions} {tn : FileNode} (h : tn ∈ idx.map (·.2)) :
    tn.path ∈ allClosurePaths idx opts := by
  rcases List.mem_map.mp h with ⟨kv0, hkv0, hkv0e⟩
  exact List.mem_append.mpr (Or.inl (List.mem_map.mpr ⟨kv0, hkv0, by rw [hkv0e]⟩))

/-- Every child the closure traversal descends into has its path among the
closure-reachable paths. -/
theorem collectFileDependencies_paths (node : FileNode) (idx : List (String × FileNode))
    (root : String) (opts : ScanOptions) :
    ∀ child ∈ collectFileDependencies node idx root opts,
      child.path ∈ allClosurePaths idx opts := by
  have hP1 : ∀ kv ∈ node.imports.foldl
      (fun nodes entry =>
        (resolveImportTargets node entry root opts).foldl
          (fun nodes target =>
            match findFileNodeByRelativePath idx target with
            | some targetNode => assocSet nodes targetNode.path targetNode
            | none => nodes)
          nodes)
      [], (kv : String × FileNode).2.path ∈ allClosurePaths idx opts := by
    refine foldl_invariant_mem
      (P := fun m => ∀ kv ∈ m, (kv : String × FileNode).2.path ∈ allClosurePaths idx opts)
      _ _ _ (by simp) ?_
    intro a e _ ha
    refine foldl_invariant_mem
      (P := fun m => ∀ kv ∈ m, (kv : String × FileNode).2.path ∈ allClosurePaths idx opts)
      _ _ _ ha ?_
    intro a' t _ ha'
    cases hf : findFileNodeByRelativePath idx t with
    | none => simpa using ha'
    | some tn =>
      simp only []
      intro kv hkv
      rcases mem_assocSet kv hkv with rfl | hkv'
      · exact path_mem_allClosurePaths_of_indexed (findFileNode_mem_values hf)
      · exact ha' kv hkv'
  have hP2 : ∀ kv ∈ ((assocFind node.path (opts.contentDependencyMap.getD [])).getD []).foldl
      (fun nodes contentPath =>
        if (assocFind contentPath nodes).isSome then nodes
        else nodes ++ [(contentPath, createContentDependencyNode contentPath)])
      (node.imports.foldl
        (fun nodes entry =>
          (resolveImportTargets node entry root opts).foldl
            (fun nodes target =>
              match findFileNodeByRelativePath idx target with
              | some targetNode => assocSet nodes targetNode.path targetNode
              | none => nodes)
            nodes)
        []), (kv : String × FileNode).2.path ∈ allClosurePaths idx opts := by
    refine foldl_invariant_mem
      (P := fun m => ∀ kv ∈ m, (kv : String × FileNode).2.path ∈ allClosurePaths idx opts)
      _ _ _ hP1 ?_
    intro a cp hcp ha
    by_cases h : (assocFind cp a).isSome
    · simpa [h] using ha
    · rw [if_neg h]
      intro kv hkv
      rcases List.mem_append.mp hkv with h' | h'
      · exact ha kv h'
      · have hkv' : kv = (cp, createContentDependencyNode cp) := by simpa using h'
        subst hkv'
        have hcp' : cp ∈ flatMapL (·.2) (opts.contentDependencyMap.getD []) := by
          cases hcd : assocFind node.path (opts.contentDependencyMap.getD []) with
          | none => rw [hcd] at hcp; simp at hcp
          | some l =>
            rw [hcd] at hcp
            exact assocFind_flatMap_mem hcd (by simpa using hcp)
        exact List.mem_append.mpr (Or.inr hcp')
  intro child hchild
  unfold collectFileDependencies at hchild
  rw [mem_sortLe] at hchild
  rcases List.mem_map.mp hchild with ⟨kv, hkv, heq⟩
  rw [← heq]
  exact hP2 kv hkv

/-- The visited set only grows during the closure traversal. -/
theorem aux_visited_mono (idx : List (String × FileNode)) (root : String) (opts : ScanOptions) :
    ∀ (fuel : Nat) (node : FileNode) (s : ComponentSummary) (v : List String),
      v ⊆ (buildComponentSummaryAux idx root opts fuel node (s, v)).2 := by
  intro fuel
  induction fuel with
  | zero => intro node s v; exact List.Subset.refl _
  | succ fuel ih =>
    intro node s v
    by_cases h : node.path ∈ v
    · simp [buildComponentSummaryAux, h]
    · simp only [buildComponentSummaryAux, h, if_false]
      have hfold : ∀ (cs : List FileNode) (s' : ComponentSummary) (v' : List String),
          v' ⊆ ((cs.foldl
            (closureVisit (buildComponentSummaryAux idx root opts fuel) root) (s', v'))).2 := by
        intro cs
        induction cs with
        | nil => intro s' v'; exact List.Subset.refl _
        | cons c cs ihc =>
          intro s' v'
          rw [List.foldl_cons]
          rcases hsv : closureVisit (buildComponentSummaryAux idx root opts fuel) root
              (s', v') c with ⟨s₂, v₂⟩
          have h1 : v' ⊆ v₂ := by
            have := ih c { s' with
              fileDependencies := insertIfAbsent s'.fileDependencies
                (formatFileDependencyPath (pathResolve root c.path) root) } v'
            unfold closureVisit at hsv
            rw [hsv] at this
            exact this
          exact h1.trans (ihc s₂ v₂)
      exact List.Subset.trans (List.subset_cons_self _ _) (hfold _ _ _)

theorem filter_length_mono (p q : α → Bool) (h : ∀ a, q a = true → p a = true) :
    ∀ l : List α, (l.filter q).length ≤ (l.filter p).length := by
  intro l
  induction l with
  | nil => simp
  | cons a as ih =>
    by_cases hq : q a = true
    · simp [List.filter_cons, hq, h a hq]
      omega
    · by_cases hp : p a = true <;> simp [List.filter_cons, hq, hp] <;> omega

theorem filter_length_lt (p q : α → Bool) (h : ∀ a, q a = true → p a = true)
    (x : α) (hp : p x = true) (hq : q x = false) :
    ∀ l : List α, x ∈ l → (l.filter q).length < (l.filter p).length := by
  intro l
  induction l with
  | nil => simp
  | cons a as ih =>
    intro hx
    rcases List.mem_cons.mp hx with rfl | hx'
    · simp [List.filter_cons, hq, hp]
      have := filter_length_mono p q h as
      omega
    · by_cases hqa : q a = true
      · simp [List.filter_cons, hqa, h a hqa]
        have := ih hx'
        omega
      · by_cases hpa : p a = true <;> simp [List.filter_cons, hqa, hpa] <;>
          have := ih hx' <;> omega

theorem unvisitedCount_mono (idx : List (String × FileNode)) (opts : ScanOptions)
    {v v' : List String} (h : v ⊆ v') :
    unvisitedCount idx opts v' ≤ unvisitedCount idx opts v := by
  refine filter_length_mono _ _ ?_ _
  intro a ha
  simp only [decide_eq_true_eq] at ha ⊢
  exact fun hav => ha (h hav)

theorem unvisitedCount_lt (idx : List (String × FileNode)) (opts : ScanOptions)
    {v : List String} {x : String} (hx : x ∈ allClosurePaths idx opts) (hnv : x ∉ v) :
    unvisitedCount idx opts (x :: v) < unvisitedCount idx opts v := by
  refine filter_length_lt _ _ ?_ x ?_ ?_ _ hx
  · intro a ha
    simp only [decide_eq_true_eq] at ha ⊢
    intro hav
    exact ha (List.mem_cons_of_mem _ hav)
  · simpa using hnv
  · simp

/-- `addPackageRefs` does not touch the file-dependency set. -/
theorem addPackageRefs_fileDeps (node : FileNode) (s : ComponentSummary) :
    (addPackageRefs node s).fileDependencies = s.fileDependencies := rfl

/-- The accumulated file-dependency set stays duplicate-free. -/
theorem aux_fileDeps_nodup (idx : List (String × FileNode)) (root : String)
    (opts : ScanOptions) :
    ∀ (fuel : Nat) (node : FileNode) (sv : ComponentSummary × List String),
      sv.1.fileDependencies.Nodup →
      ((buildComponentSummaryAux idx root opts fuel node sv).1.fileDependencies).Nodup := by
  intro fuel
  induction fuel with
  | zero => intro node sv h; exact h
  | succ fuel ih =>
    intro node sv h
    by_cases hv : node.path ∈ sv.2
    · simpa [buildComponentSummaryAux, hv] using h
    · simp only [buildComponentSummaryAux, hv, if_false]
      have hfold : ∀ (cs : List FileNode) (sv' : ComponentSummary × List String),
          sv'.1.fileDependencies.Nodup →
          (((cs.foldl
            (closureVisit (buildComponentSummaryAux idx root opts fuel) root) sv')).1.fileDependencies).Nodup := by
        intro cs
        induction cs with
        | nil => intro sv' h'; exact h'
        | cons c cs ihc =>
          intro sv' h'
          rw [List.foldl_cons]
          refine ihc _ ?_
          exact ih c _ (nodup_insertIfAbsent _ _ h')
      exact hfold _ _ (by simpa [addPackageRefs_fileDeps] using h)

/-- Fuel-indifference of the closure traversal: once the fuel dominates the
number of unvisited reachable paths, the traversal result does not depend on
it — the source recursion terminates with this common value on any finite
index, cycles included. -/
theorem aux_stable_core (idx : List (String × FileNode)) (root : String) (opts : ScanOptions) :
    ∀ n : Nat,
      (∀ (node : FileNode) (s : ComponentSummary) (v : List String) (fuel₁ fuel₂ : Nat),
        (node.path ∈ allClosurePaths idx opts ∨ node.path ∈ v) →
        unvisitedCount idx opts v ≤ n → n + 1 ≤ fuel₁ → n + 1 ≤ fuel₂ →
        buildComponentSummaryAux idx root opts fuel₁ node (s, v)
          = buildComponentSummaryAux idx root opts fuel₂ node (s, v))
      ∧ (∀ cs : List FileNode,
          (∀ c ∈ cs, c.path ∈ allClosurePaths idx opts) →
          ∀ (sv : ComponentSummary × List String) (fuel₁ fuel₂ : Nat),
            unvisitedCount idx opts sv.2 ≤ n → n + 1 ≤ fuel₁ → n + 1 ≤ fuel₂ →
            cs.foldl (closureVisit (buildComponentSummaryAux idx root opts fuel₁) root) sv
              = cs.foldl (closureVisit (buildComponentSummaryAux idx root opts fuel₂) root) sv) := by
  intro n
  induction n using Nat.strong_induction_on with
  | _ n IH =>
    have core : ∀ (node : FileNode) (s : ComponentSummary) (v : List String) (fuel₁ fuel₂ : Nat),
        (node.path ∈ allClosurePaths idx opts ∨ node.path ∈ v) →
        unvisitedCount idx opts v ≤ n → n + 1 ≤ fuel₁ → n + 1 ≤ fuel₂ →
        buildComponentSummaryAux idx root opts fuel₁ node (s, v)
          = buildComponentSummaryAux idx root opts fuel₂ node (s, v) := by
      intro node s v fuel₁ fuel₂ hmem hcnt hf₁ hf₂
      obtain ⟨g₁, rfl⟩ : ∃ g, fuel₁ = g + 1 := ⟨fuel₁ - 1, by omega⟩
      obtain ⟨g₂, rfl⟩ : ∃ g, fuel₂ = g + 1 := ⟨fuel₂ - 1, by omega⟩
      by_cases hv : node.path ∈ v
      · simp [buildComponentSummaryAux, hv]
      · simp only [buildComponentSummaryAux, hv, if_false]
        have hA : node.path ∈ allClosurePaths idx opts := hmem.resolve_right hv
        have hpos : 1 ≤ unvisitedCount idx opts v := by
          have hmemf : node.path ∈ (allClosurePaths idx opts).filter
              (fun p => decide (p ∉ v)) := List.mem_filter.mpr ⟨hA, by simpa using hv⟩
          have := List.length_pos_of_mem hmemf
          unfold unvisitedCount
          omega
        have hlt : unvisitedCount idx opts (node.path :: v) < unvisitedCount idx opts v :=
          unvisitedCount_lt idx opts hA hv
        have hlist := (IH (n - 1) (by omega)).2
        exact hlist (collectFileDependencies node idx root opts)
          (collectFileDependencies_paths node idx root opts)
          (addPackageRefs node s, node.path :: v) g₁ g₂
          (by simp only []; omega) (by omega) (by omega)
    refine ⟨core, ?_⟩
    intro cs
    induction cs with
    | nil => intro _ sv f₁ f₂ _ _ _; simp
    | cons c cs ihc =>
      intro hmemcs sv f₁ f₂ hcnt hf₁ hf₂
      rw [List.foldl_cons, List.foldl_cons]
      have hhead : closureVisit (buildComponentSummaryAux idx root opts f₁) root sv c
          = closureVisit (buildComponentSummaryAux idx root opts f₂) root sv c := by
        unfold closureVisit
        exact core c _ sv.2 f₁ f₂ (Or.inl (hmemcs c (List.mem_cons_self _ _))) hcnt hf₁ hf₂
      rw [hhead]
      have hsub : sv.2 ⊆ (closureVisit (buildComponentSummaryAux idx root opts f₂) root sv c).2 := by
        unfold closureVisit
        exact aux_visited_mono idx root opts f₂ c _ sv.2
      exact ihc (fun c' hc' => hmemcs c' (List.mem_cons_of_mem _ hc')) _ f₁ f₂
        (le_trans (unvisitedCount_mono idx opts hsub) hcnt) hf₁ hf₂

/-- C7: for any file index and options — cyclic resolved edges included — the
closure traversal from any candidate is stable once the fuel reaches
`closureBound` (the recursion of the source terminates with this value on
every finite graph, the visited set being scoped to the computation), and the
accumulated file-dependency set never acquires duplicates, so each file of a
cycle appears exactly once. -/
theorem c7_closure_terminates (fileIndex : List (String × FileNode)) (rootPath : String)
    (options : ScanOptions) (node : FileNode) (s : ComponentSummary) (v : List String)
    (fuel₁ fuel₂ : Nat)
    (h₁ : closureBound fileIndex options v ≤ fuel₁)
    (h₂ : closureBound fileIndex options v ≤ fuel₂) :
    buildComponentSummaryAux fileIndex rootPath options fuel₁ node (s, v)
      = buildComponentSummaryAux fileIndex rootPath options fuel₂ node (s, v)
    ∧ (s.fileDependencies.Nodup →
        ((buildComponentSummaryAux fileIndex rootPath options fuel₁ node
            (s, v)).1.fileDependencies).Nodup) := by
  unfold closureBound at h₁ h₂
  constructor
  · obtain ⟨g₁, rfl⟩ : ∃ g, fuel₁ = g + 1 := ⟨fuel₁ - 1, by omega⟩
    obtain ⟨g₂, rfl⟩ : ∃ g, fuel₂ = g + 1 := ⟨fuel₂ - 1, by omega⟩
    by_cases hv : node.path ∈ v
    · simp [buildComponentSummaryAux, hv]
    · simp only [buildComponentSummaryAux, hv, if_false]
      have hlist := (aux_stable_core fileIndex rootPath options
        (unvisitedCount fileIndex options v)).2
      refine hlist (collectFileDependencies node fileIndex rootPath options)
        (collectFileDependencies_paths node fileIndex rootPath options)
        (addPackageRefs node s, node.path :: v) g₁ g₂ ?_ (by omega) (by omega)
      simp only []
      exact unvisitedCount_mono fileIndex options (List.subset_cons_self _ _)
  · intro hnd
    exact aux_fileDeps_nodup fileIndex rootPath options fuel₁ node (s, v) hnd

/-- C7 witness: the two-file import cycle `a.ts ↔ b.ts` — the traversal result
is the same at fuel 10 and at the wrapper's own `closureFuel`, and the
accumulated file-dependency set holds both cycle members exactly once. -/
theorem c7_closure_terminates_witness :
    closureBound c7Index c7Opts [] ≤ 10
    ∧ closureBound c7Index c7Opts [] ≤ closureFuel c7Index c7Opts
    ∧ buildComponentSummaryAux c7Index "/root" c7Opts 10 c7FileA (⟨[], [], []⟩, [])
        = buildComponentSummaryAux c7Index "/root" c7Opts (closureFuel c7Index c7Opts)
            c7FileA (⟨[], [], []⟩, [])
    ∧ (buildComponentSummary c7FileA c7Index "/root" c7Opts).fileDependencies
        = ["b.ts", "a.ts"] :=
  ⟨by decide, by decide,
    (c7_closure_terminates c7Index "/root" c7Opts c7FileA ⟨[], [], []⟩ [] 10
      (closureFuel c7Index c7Opts) (by decide) (by decide)).1,
    by decide⟩
